import Mathlib

set_option autoImplicit false

/-!
# Verification of the group-scoped catalog bot (`main.py`)

A shallow embedding of the catalog data model and of the conversation
handlers of `main.py`, together with proofs and refutations of the
frozen specification claims.

Conventions of the embedding:
* Python strings are `List Char` (`Name`); `str.startswith` is
  `List.isPrefixOf`, `str.replace(pat, "")` is `removeOccs` below.
* The catalog (`CATALOG`, a JSON object mapping category key to product
  list) is an association list with first-match lookup, in-place update
  on an existing key and append on a fresh key — Python `dict` semantics.
* The group directory (`admin_features._access_codes["groups"]`, a JSON
  object mapping group name to member user-id list) is likewise an
  association list; iteration order is insertion order as in Python.
* Each conversation handler is embedded as a pure function from the
  data it reads (catalog, groups, viewer id, text input) to the data it
  writes (new catalog, next conversation state, produced listing).
-/

namespace CatalogBot

/-- Python strings, viewed as character lists. -/
abbrev Name := List Char

/-- User ids (Telegram numeric ids). -/
abbrev UserId := Nat

/-- A product entry of the catalog: the `skip_media` path stores no
`media` key at all, hence the `Option`. Media refs are opaque handles. -/
structure Product where
  name : Name
  price : Name
  description : Name
  media : Option (List Nat)
deriving DecidableEq

/-- The category → product-list map (the `CATALOG` JSON object without
its `stats` entry, which is not a category). -/
abbrev Catalog := List (Name × List Product)

/-- The group directory: group name → member list, in insertion order. -/
abbrev Groups := List (Name × List UserId)

/-- The reserved sold-out marker `'SOLD OUT ! ❌'`. -/
def SOLD_OUT : Name := "SOLD OUT ! ❌".toList

/-- The group-key separator convention `f"{group}_"`. -/
def gpfx (g : Name) : Name := g ++ ['_']

/-! ## Python `dict` operations on the association list -/

/-- `CATALOG[k]` / `CATALOG.get(k)`: first-match lookup. -/
def catLookup : Catalog → Name → Option (List Product)
  | [], _ => none
  | (k', v') :: rest, k => if k' = k then some v' else catLookup rest k

/-- `k in CATALOG`. -/
def catMem (c : Catalog) (k : Name) : Bool :=
  (catLookup c k).isSome

/-- `CATALOG[k] = v`: update in place when the key exists, append
otherwise (Python `dict` assignment). -/
def catSet : Catalog → Name → List Product → Catalog
  | [], k, v => [(k, v)]
  | (k', v') :: rest, k, v =>
    if k' = k then (k', v) :: rest else (k', v') :: catSet rest k v

/-- `del CATALOG[k]` / `CATALOG.pop(k)`: drop the binding of `k`. -/
def catRemove : Catalog → Name → Catalog
  | [], _ => []
  | (k', v') :: rest, k =>
    if k' = k then rest else (k', v') :: catRemove rest k

theorem catLookup_catSet_self (c : Catalog) (k : Name) (v : List Product) :
    catLookup (catSet c k v) k = some v := by
  induction c with
  | nil => simp [catSet, catLookup]
  | cons e rest ih =>
    obtain ⟨k', v'⟩ := e
    by_cases h : k' = k <;> simp [catSet, catLookup, h, ih]

theorem catLookup_catSet_ne (c : Catalog) (k k' : Name) (v : List Product)
    (h : k' ≠ k) : catLookup (catSet c k v) k' = catLookup c k' := by
  induction c with
  | nil =>
    simp only [catSet, catLookup]
    rw [if_neg (fun hh => h hh.symm)]
  | cons e rest ih =>
    obtain ⟨k₀, v₀⟩ := e
    have hne : k₀ = k → ¬ (k₀ = k') := fun hk hk' => h (hk' ▸ hk ▸ rfl)
    by_cases h₀ : k₀ = k
    · simp only [catSet, if_pos h₀, catLookup]
      rw [if_neg (hne h₀), if_neg (hne h₀)]
    · by_cases h₁ : k₀ = k'
      · simp [catSet, catLookup, h₀, h₁, h]
      · simp [catSet, catLookup, h₀, h₁, h, ih]

/-! ## Python `str.replace(pat, "")` -/

/-- One step of Python `s.replace(pat, "")` for the non-empty pattern
`p0 :: pt`: scan left to right, delete each non-overlapping occurrence
and resume scanning after it. -/
def removeOccsNE (p0 : Char) (pt : Name) : Name → Name
  | [] => []
  | c :: rest =>
    if (p0 :: pt).isPrefixOf (c :: rest) then removeOccsNE p0 pt (rest.drop pt.length)
    else c :: removeOccsNE p0 pt rest
termination_by l => l.length
decreasing_by
  · simp only [List.length_drop, List.length_cons]
    omega
  · simp

/-- Python `s.replace(pat, "")` (an empty pattern leaves `s` unchanged
at every position that matters here; all call sites pass `gpfx g`,
which is never empty). -/
def removeOccs (pat s : Name) : Name :=
  match pat with
  | [] => s
  | p0 :: pt => removeOccsNE p0 pt s

/-- Whether `pat` occurs as a contiguous substring of `s`. -/
def occursIn (pat : Name) : Name → Bool
  | [] => pat.isEmpty
  | c :: rest => pat.isPrefixOf (c :: rest) || occursIn pat rest

theorem isPrefixOf_append_self (x y : Name) : x.isPrefixOf (x ++ y) = true := by
  induction x with
  | nil => simp [List.isPrefixOf]
  | cons a as ih => simp [List.isPrefixOf, ih]

theorem removeOccsNE_of_not_occursIn (p0 : Char) (pt : Name) (s : Name)
    (h : occursIn (p0 :: pt) s = false) : removeOccsNE p0 pt s = s := by
  induction s with
  | nil => simp [removeOccsNE]
  | cons c rest ih =>
    simp only [occursIn, Bool.or_eq_false_iff] at h
    rw [removeOccsNE, if_neg (by simp [h.1]), ih h.2]

/-- A leading occurrence of the pattern is deleted and scanning resumes
on the remainder. -/
theorem removeOccs_pat_append (pat s : Name) (hne : pat ≠ []) :
    removeOccs pat (pat ++ s) = removeOccs pat s := by
  obtain ⟨p0, pt, hg⟩ : ∃ p0 pt, pat = p0 :: pt := by
    cases hgp : pat with
    | nil => exact absurd hgp hne
    | cons a as => exact ⟨a, as, rfl⟩
  subst hg
  have hcons : (p0 :: pt) ++ s = p0 :: (pt ++ s) := rfl
  rw [removeOccs, hcons, removeOccsNE,
    if_pos (by rw [← hcons]; exact isPrefixOf_append_self _ _)]
  rw [List.drop_left' rfl]
  rfl

/-- A string not containing the pattern is left unchanged. -/
theorem removeOccs_of_not_occursIn (pat s : Name)
    (h : occursIn pat s = false) : removeOccs pat s = s := by
  cases pat with
  | nil => rfl
  | cons p0 pt => exact removeOccsNE_of_not_occursIn p0 pt s h

/-- Removing every occurrence of the prefix from a prefixed key yields
the local name, provided the local name does not itself contain the
prefix as a substring. -/
theorem removeOccs_gpfx_append (g local_ : Name)
    (h : occursIn (gpfx g) local_ = false) :
    removeOccs (gpfx g) (gpfx g ++ local_) = local_ := by
  rw [removeOccs_pat_append _ _ (by simp [gpfx]),
    removeOccs_of_not_occursIn _ _ h]

/-! ## The group directory -/

/-- The first configured group whose `f"{group}_"` key convention
matches `key` — the loop
`for group_name in groups: if key.startswith(f"{group_name}_")`. -/
def findGroup : Groups → Name → Option (Name × List UserId)
  | [], _ => none
  | gr :: rest, key =>
    if (gpfx gr.1).isPrefixOf key then some gr else findGroup rest key

/-- The groups the user belongs to, in configuration order — the loop
`for group_name, members in groups.items(): if user_id in members`. -/
def userGroups (uid : UserId) : Groups → List Name
  | [] => []
  | gr :: rest =>
    if gr.2.contains uid then gr.1 :: userGroups uid rest
    else userGroups uid rest

/-- Adding `uid` to the member set of the group named `g`. -/
def addMember (groups : Groups) (g : Name) (uid : UserId) : Groups :=
  groups.map (fun gr => if gr.1 = g then (gr.1, uid :: gr.2) else gr)

theorem findGroup_addMember (groups : Groups) (g : Name) (uid : UserId)
    (key : Name) :
    findGroup (addMember groups g uid) key =
      (findGroup groups key).map
        (fun gr => if gr.1 = g then (gr.1, uid :: gr.2) else gr) := by
  induction groups with
  | nil => simp [findGroup, addMember]
  | cons gr rest ih =>
    have hfst : (if gr.1 = g then (gr.1, uid :: gr.2) else gr).1 = gr.1 := by
      by_cases hg : gr.1 = g <;> simp [hg]
    simp only [addMember, List.map_cons, findGroup, hfst]
    by_cases hp : (gpfx gr.1).isPrefixOf key
    · simp [hp]
    · simpa [hp] using ih

theorem userGroups_addMember_mono (groups : Groups) (g x : Name)
    (uid : UserId) (h : x ∈ userGroups uid groups) :
    x ∈ userGroups uid (addMember groups g uid) := by
  induction groups with
  | nil => simp [userGroups] at h
  | cons gr rest ih =>
    simp only [userGroups, addMember, List.map_cons] at h ⊢
    by_cases hg : gr.1 = g
    · by_cases hc : gr.2.contains uid
      · simp only [if_pos hc] at h
        simp only [if_pos hg, List.contains_cons, beq_self_eq_true,
          Bool.true_or, if_pos]
        rcases (List.mem_cons).mp h with h | h
        · exact h ▸ List.mem_cons_self _ _
        · exact List.mem_cons_of_mem _ (ih h)
      · simp only [hc, Bool.false_eq_true, if_false] at h
        simp only [if_pos hg, List.contains_cons, beq_self_eq_true,
          Bool.true_or, if_pos]
        exact List.mem_cons_of_mem _ (ih h)
    · by_cases hc : gr.2.contains uid
      · simp only [if_pos hc] at h
        simp only [if_neg hg, if_pos hc]
        rcases (List.mem_cons).mp h with h | h
        · exact h ▸ List.mem_cons_self _ _
        · exact List.mem_cons_of_mem _ (ih h)
      · simp only [hc, Bool.false_eq_true, if_false] at h
        simp only [if_neg hg, hc, Bool.false_eq_true, if_false]
        exact ih h

theorem mem_userGroups_addMember_self (groups : Groups) (g : Name)
    (uid : UserId) (hg : ∃ m, (g, m) ∈ groups) :
    g ∈ userGroups uid (addMember groups g uid) := by
  obtain ⟨m, hm⟩ := hg
  induction groups with
  | nil => simp at hm
  | cons gr rest ih =>
    simp only [userGroups, addMember, List.map_cons]
    rcases (List.mem_cons).mp hm with h | h
    · have : gr.1 = g := by rw [← h]
      simp [this]
    · by_cases hgr : gr.1 = g
      · simp [hgr]
      · specialize ih h
        by_cases hc : gr.2.contains uid
        · simp only [if_neg hgr, if_pos hc]
          exact List.mem_cons_of_mem _ ih
        · simp only [if_neg hgr, hc, Bool.false_eq_true, if_false]
          exact ih

/-! ## Conversation states -/

/-- The conversation states reachable from the handlers modelled here
(a subset of the module-level state constants of `main.py`). -/
inductive ConvState
  | choosing
  | waitingCategoryName
  | waitingProductName
  | waitingProductPrice
  | waitingNewCategoryName
  | selectingCategory
  | editingCategory
deriving DecidableEq

/-- Every state except `CHOOSING` waits for a pending input. -/
def ConvState.isWaiting : ConvState → Bool
  | .choosing => false
  | _ => true

/-! ## The customer-facing listings -/

/-- Product-level filter of the `view_` branch for a public category
(`main.py` 2944–2951): hide a product iff some configured group's key
convention matches its name and the viewer is not in that group
(the loop breaks at the first matching group). -/
def viewShowProduct (groups : Groups) (uid : UserId) (pname : Name) : Bool :=
  match findGroup groups pname with
  | some gr => gr.2.contains uid
  | none => true

/-- The `view_` branch (`main.py` 2900–2953): look the category up;
if it is group-scoped, non-members are rejected (`none`) and members
see all of its products unfiltered; if it is public, each product is
filtered individually by `viewShowProduct`. -/
def view_branch (catalog : Catalog) (groups : Groups) (uid : UserId)
    (category : Name) : Option (List Product) :=
  match catLookup catalog category with
  | none => none
  | some ps =>
    match findGroup groups category with
    | some gr => if gr.2.contains uid then some ps else none
    | none => some (ps.filter (fun p => viewShowProduct groups uid p.name))

/-- One category button of the `show_categories` branch
(`main.py` 3477–3503): `some displayName` when the category is shown to
`uid`, `none` when it is hidden. A group category is shown iff the
user's group list contains the owning group's name, with the display
name computed by `category.replace(f"{category_group}_", "")`; a public
category is always shown under its full key. -/
def showCategoriesEntry (groups : Groups) (uid : UserId)
    (category : Name) : Option Name :=
  match findGroup groups category with
  | some gr =>
    if ¬ (userGroups uid groups).isEmpty ∧ gr.1 ∈ userGroups uid groups then
      some (removeOccs (gpfx gr.1) category)
    else none
  | none => some category

/-! ## The admin selection listings (edit / delete flows) -/

/-- Product filter of the `editcat_` branch (`main.py` 3292–3309):
in a public category a viewer who belongs to at least one group sees
ONLY the products of their own groups, a group-less viewer sees only
the public products; in a group category products are shown iff the
viewer is a member of a group owning the category. -/
def editcatShowProduct (groups : Groups) (uid : UserId)
    (category pname : Name) : Bool :=
  let ug := userGroups uid groups
  let isPublicCategory :=
    ¬ groups.any (fun gr => (gpfx gr.1).isPrefixOf category)
  if isPublicCategory then
    if ¬ ug.isEmpty then
      ug.any (fun g => (gpfx g).isPrefixOf pname)
    else
      ¬ groups.any (fun gr => (gpfx gr.1).isPrefixOf pname)
  else
    groups.any (fun gr =>
      (gpfx gr.1).isPrefixOf category && gr.2.contains uid)

/-- Category filter of the `delete_category` branch
(`main.py` 2121–2144): users who belong to groups see ONLY their group
categories; group-less users see only the public categories. -/
def deleteCategoryShow (groups : Groups) (uid : UserId)
    (category : Name) : Bool :=
  let ug := userGroups uid groups
  if ¬ ug.isEmpty then
    ug.any (fun g => (gpfx g).isPrefixOf category)
  else
    ¬ groups.any (fun gr => (gpfx gr.1).isPrefixOf category)

/-! ## Catalog mutations -/

/-- `is_category_sold_out` (`main.py` 181–187): the category's list is
exactly one entry whose name is the sold-out marker. -/
def is_category_sold_out (catalog : Catalog) (category : Name) : Bool :=
  match catLookup catalog category with
  | some [p] => p.name == SOLD_OUT
  | _ => false

/-- The sentinel product written by the `confirm_soldout_` branch
(`main.py` 2474–2479). -/
def soldOutSentinel : Product :=
  { name := SOLD_OUT
    price := "Non disponible".toList
    description := "Cette catégorie est temporairement en rupture de stock.".toList
    media := some [] }

/-- The `confirm_soldout_` branch (`main.py` 2470–2480): replace the
category's whole product list by the sentinel singleton. -/
def confirm_soldout_step (catalog : Catalog) (category : Name) : Catalog :=
  catSet catalog category [soldOutSentinel]

/-- The sold-out clearing guard shared by `handle_product_name`
(`main.py` 1276–1278) and `finish_product_media` (`main.py` 1452–1453):
if the category currently holds exactly the sentinel, empty it. -/
def clearSoldOutStep (catalog : Catalog) (category : Name) : Catalog :=
  match catLookup catalog category with
  | some [p] => if p.name == SOLD_OUT then catSet catalog category [] else catalog
  | _ => catalog

/-- Group prefixing of a new product's name in `handle_product_name`
(`main.py` 1262–1273): in a public category, a viewer who belongs to at
least one group gets their first group's key convention prepended. -/
def prefixedProductName (groups : Groups) (uid : UserId)
    (category rawName : Name) : Name :=
  if ¬ groups.any (fun gr => (gpfx gr.1).isPrefixOf category) then
    match userGroups uid groups with
    | [] => rawName
    | g :: _ => gpfx g ++ rawName
  else rawName

/-- `handle_product_name` (`main.py` 1256–1306): prefix the entered
name, clear a sold-out category, then either reject a duplicate name
(stay in `WAITING_PRODUCT_NAME`, storing nothing) or store the name and
advance to `WAITING_PRODUCT_PRICE`. -/
def handle_product_name_step (catalog : Catalog) (groups : Groups)
    (uid : UserId) (category rawName : Name) :
    Catalog × ConvState × Option Name :=
  let pname := prefixedProductName groups uid category rawName
  let catalog' := clearSoldOutStep catalog category
  if ((catLookup catalog' category).getD []).any (fun p => p.name == pname) then
    (catalog', .waitingProductName, none)
  else
    (catalog', .waitingProductPrice, some pname)

/-- The new-product write of `finish_product_media`
(`main.py` 1444–1461): clear a sold-out category, create the category
if missing, then append the product (which carries a `media` list). -/
def finishProductMediaStep (catalog : Catalog) (category : Name)
    (p : Product) : Catalog :=
  let c1 := clearSoldOutStep catalog category
  let c2 := if catMem c1 category then c1 else catSet c1 category []
  catSet c2 category (((catLookup c2 category).getD []) ++ [p])

/-- The `skip_media` branch (`main.py` 2763–2778): create the category
if missing and append the product (which carries no `media` key);
no sold-out clearing happens here. -/
def skipMediaStep (catalog : Catalog) (category : Name)
    (p : Product) : Catalog :=
  let c1 := if catMem catalog category then catalog else catSet catalog category []
  catSet c1 category (((catLookup c1 category).getD []) ++ [p])

/-- `handle_category_name` (`main.py` 1177–1254): with more than one
group the flow forks into the group-disambiguation screen; otherwise
the (possibly prefixed) key is created unless it already exists, in
which case the handler stays in `WAITING_CATEGORY_NAME`. -/
def handle_category_name_step (catalog : Catalog) (groups : Groups)
    (uid : UserId) (rawName : Name) : Catalog × ConvState :=
  let ug := userGroups uid groups
  if ug.length > 1 then
    (catalog, .choosing)
  else
    let categoryName :=
      match ug with
      | [g] => gpfx g ++ rawName
      | _ => rawName
    if catMem catalog categoryName then (catalog, .waitingCategoryName)
    else (catSet catalog categoryName [], .choosing)

/-- Owning-group resolution of the category rename handler
(the second `handle_new_category_name`, `main.py` 3636–3642): the first
group that both contains the requester and prefixes the old key. -/
def renameUserGroup (uid : UserId) (oldCat : Name) : Groups → Option Name
  | [] => none
  | gr :: rest =>
    if gr.2.contains uid && (gpfx gr.1).isPrefixOf oldCat then some gr.1
    else renameUserGroup uid oldCat rest

/-- The second (live) `handle_new_category_name` (`main.py` 3631–3688):
re-apply the requester's owning-group prefix to the entered local name,
reject an existing target key (stay in `WAITING_NEW_CATEGORY_NAME`,
catalog untouched), otherwise move the product list to the new key via
`CATALOG[new] = CATALOG.pop(old)`. A missing old key raises (`none`,
the `KeyError` propagates to the dispatcher). -/
def handle_new_category_name_step (catalog : Catalog) (groups : Groups)
    (uid : UserId) (oldCat newNameRaw : Name) :
    Option (Catalog × ConvState) :=
  let newCat :=
    match renameUserGroup uid oldCat groups with
    | some g => gpfx g ++ newNameRaw
    | none => newNameRaw
  if catMem catalog newCat then some (catalog, .waitingNewCategoryName)
  else
    match catLookup catalog oldCat with
    | none => none
    | some ps => some (catSet (catRemove catalog oldCat) newCat ps, .choosing)

/-- The `really_delete_product_` write (`main.py` 2315): keep every
product of the category whose name differs from the deleted one.
(The category and product names are the ones the fuzzy
callback-data match resolved to.) -/
def deleteProductStep (catalog : Catalog) (category pname : Name) : Catalog :=
  match catLookup catalog category with
  | some ps => catSet catalog category (ps.filter (fun p => !(p.name == pname)))
  | none => catalog

/-- The `confirm_delete_category_` write (`main.py` 2157–2172): delete
the key when it exists and the requester passes the owning-group check. -/
def deleteCategoryStep (catalog : Catalog) (groups : Groups)
    (uid : UserId) (category : Name) : Catalog :=
  if catMem catalog category then
    let canDelete :=
      match findGroup groups category with
      | some gr => gr.2.contains uid
      | none => true
    if canDelete then catRemove catalog category else catalog
  else catalog

/-! ## Product field edits -/

/-- The fields `handle_new_value` can write (`media` goes through the
separate media flow). -/
inductive EditField
  | fname
  | fprice
  | fdescription
deriving DecidableEq

/-- `updated_product[field] = new_value` (`main.py` 1556). -/
def applyEdit (f : EditField) (v : Name) (p : Product) : Product :=
  match f with
  | .fname => { p with name := v }
  | .fprice => { p with price := v }
  | .fdescription => { p with description := v }

/-- Replace the first product named `oldName` (`main.py` 1550–1560). -/
def updateFirstProduct (oldName : Name) (f : Product → Product) :
    List Product → List Product
  | [] => []
  | p :: rest =>
    if p.name == oldName then f p :: rest
    else p :: updateFirstProduct oldName f rest

/-- The name-prefix rule of `handle_new_value` (`main.py` 1532–1541):
re-apply the prefix of the FIRST configured group whose key convention
matches the product's old name; otherwise store the entered value
unchanged (the editor's own groups are not consulted). -/
def handle_new_value_name (groups : Groups) (oldName newValue : Name) : Name :=
  let currentPfx : Name :=
    match findGroup groups oldName with
    | some gr => gpfx gr.1
    | none => []
  if ¬ currentPfx.isEmpty then currentPfx ++ newValue else newValue

/-- The catalog write of `handle_new_value` (`main.py` 1523–1577):
compute the stored value (prefixing only for the `name` field), then
replace the first matching product; a missing category or product is an
exception path (`none`) in which the catalog is not saved. -/
def handle_new_value_step (catalog : Catalog) (groups : Groups)
    (f : EditField) (category oldName newValueRaw : Name) :
    Option Catalog :=
  let v :=
    match f with
    | .fname => handle_new_value_name groups oldName newValueRaw
    | _ => newValueRaw
  match catLookup catalog category with
  | none => none
  | some ps =>
    if ps.any (fun p => p.name == oldName) then
      some (catSet catalog category (updateFirstProduct oldName (applyEdit f v) ps))
    else none

/-- The name-prefix rule of the dead, never-registered
`edit_product_name` (`main.py` 3578–3602): use the product's current
prefix, falling back to the editor's first group's prefix, and do not
double an already-present prefix. This is the behaviour §4.4 of the
spec describes, but no handler table entry points at this function. -/
def edit_product_name_rule (groups : Groups) (uid : UserId)
    (oldName newName : Name) : Name :=
  let currentPfx : Name :=
    match findGroup groups oldName with
    | some gr => gpfx gr.1
    | none => []
  let userGroupPfx : Name :=
    match userGroups uid groups with
    | [] => []
    | g :: _ => gpfx g
  let pfxToUse := if ¬ currentPfx.isEmpty then currentPfx else userGroupPfx
  if ¬ pfxToUse.isEmpty then
    if ¬ pfxToUse.isPrefixOf newName then pfxToUse ++ newName else newName
  else newName

/-! ## The dispatch error boundary -/

/-- The error kinds `error_handler` distinguishes
(`main.py` 3790–3805). -/
inductive ErrKind
  | network
  | timedOut
  | other
deriving DecidableEq

/-- The outbound actions the error boundary can produce. -/
inductive BotAction
  | logError
  | answerCallback
  | renderAdminMenu
  | renderHomeMenu
deriving DecidableEq

/-- `error_handler` (`main.py` 3790–3805): log; for network/timeout
errors additionally answer the callback (when one exists) with a
"please retry" toast. No menu is rendered and no state is returned. -/
def error_handler_actions : ErrKind → Bool → List BotAction
  | .network, hasCb => .logError :: (if hasCb then [.answerCallback] else [])
  | .timedOut, hasCb => .logError :: (if hasCb then [.answerCallback] else [])
  | .other, _ => [.logError]

/-- The dispatch boundary on a handler exception: the conversation
framework keeps the per-user state untouched when a handler raises (no
new state is returned), and `error_handler` runs for its side effects. -/
def dispatch_on_error (s : ConvState) (e : ErrKind) (hasCb : Bool) :
    ConvState × List BotAction :=
  (s, error_handler_actions e hasCb)

/-! ## Catalog loading -/

/-- The statistics block of the catalog file. -/
structure Stats where
  total_views : Nat
  category_views : List (Name × Nat)
  product_views : List (Name × List (Name × Nat))
  last_updated : Name
  last_reset : Name
deriving DecidableEq

/-- The parsed content of `config/catalog.json`: the category map plus
an optional `stats` entry. -/
structure CatalogFile where
  categories : Catalog
  stats : Option Stats
deriving DecidableEq

/-- The three ways reading and parsing the catalog file can go. -/
inductive LoadOutcome
  | parsed (c : CatalogFile)
  | fileNotFound
  | otherError
deriving DecidableEq

/-- `load_catalog` (`main.py` 57–70): return the parsed file; on
`FileNotFoundError` return a fresh catalog holding only a
zero-initialised `stats` entry stamped with the current time and date;
on any other exception return the empty dict. All exception paths are
caught, so the function is total. -/
def load_catalog (nowTime nowDate : Name) : LoadOutcome → CatalogFile
  | .parsed c => c
  | .fileNotFound =>
    { categories := []
      stats := some
        { total_views := 0
          category_views := []
          product_views := []
          last_updated := nowTime
          last_reset := nowDate } }
  | .otherError => { categories := [], stats := none }

/-! ## The sold-out invariant -/

/-- A single category's product list is well formed: either no product
carries the reserved sold-out name, or the list is exactly one
sentinel-named product. -/
def catOkB (ps : List Product) : Bool :=
  ps.all (fun p => !(p.name == SOLD_OUT)) ||
    (match ps with
     | [p] => p.name == SOLD_OUT
     | _ => false)

/-- The sold-out invariant over the whole catalog. -/
def CatalogInv (catalog : Catalog) : Prop :=
  ∀ e ∈ catalog, catOkB e.2 = true

instance (catalog : Catalog) : Decidable (CatalogInv catalog) :=
  decidable_of_iff (∀ e ∈ catalog, catOkB e.2 = true) Iff.rfl

/-! ## Helper lemmas -/

theorem findGroup_mem {groups : Groups} {key : Name}
    {gr : Name × List UserId} (h : findGroup groups key = some gr) :
    gr ∈ groups := by
  induction groups with
  | nil => simp [findGroup] at h
  | cons g rest ih =>
    by_cases hp : (gpfx g.1).isPrefixOf key
    · simp only [findGroup, if_pos hp, Option.some.injEq] at h
      exact h ▸ List.mem_cons_self _ _
    · simp only [findGroup, if_neg hp] at h
      exact List.mem_cons_of_mem _ (ih h)

theorem mem_userGroups_iff (uid : UserId) (groups : Groups) (g : Name) :
    g ∈ userGroups uid groups ↔ ∃ m, (g, m) ∈ groups ∧ uid ∈ m := by
  induction groups with
  | nil => simp [userGroups]
  | cons gr rest ih =>
    simp only [userGroups]
    by_cases hc : gr.2.contains uid
    · have hmem : uid ∈ gr.2 := by simpa using hc
      rw [if_pos hc]
      constructor
      · intro h
        rcases (List.mem_cons).mp h with h | h
        · exact ⟨gr.2, by rw [h]; exact List.mem_cons_self _ _, hmem⟩
        · obtain ⟨m, hm, hu⟩ := ih.mp h
          exact ⟨m, List.mem_cons_of_mem _ hm, hu⟩
      · rintro ⟨m, hm, hu⟩
        rcases (List.mem_cons).mp hm with h | h
        · have : g = gr.1 := congrArg Prod.fst h
          exact this ▸ List.mem_cons_self _ _
        · exact List.mem_cons_of_mem _ (ih.mpr ⟨m, h, hu⟩)
    · have hmem : uid ∉ gr.2 := by simpa using hc
      rw [if_neg hc]
      rw [ih]
      constructor
      · rintro ⟨m, hm, hu⟩
        exact ⟨m, List.mem_cons_of_mem _ hm, hu⟩
      · rintro ⟨m, hm, hu⟩
        rcases (List.mem_cons).mp hm with h | h
        · have hm2 : m = gr.2 := congrArg Prod.snd h
          exact absurd (hm2 ▸ hu) hmem
        · exact ⟨m, h, hu⟩

theorem nodup_keys_unique {groups : Groups}
    (hnd : (groups.map Prod.fst).Nodup) {g : Name} {m m' : List UserId}
    (h : (g, m) ∈ groups) (h' : (g, m') ∈ groups) : m = m' := by
  induction groups with
  | nil => simp at h
  | cons gr rest ih =>
    simp only [List.map_cons, List.nodup_cons] at hnd
    rcases (List.mem_cons).mp h with h₁ | h₁ <;>
      rcases (List.mem_cons).mp h' with h₂ | h₂
    · rw [← h₁] at h₂
      exact (Prod.mk.injEq _ _ _ _ ▸ h₂.symm).2
    · exfalso
      apply hnd.1
      rw [← show g = gr.1 from congrArg Prod.fst h₁]
      exact List.mem_map.mpr ⟨(g, m'), h₂, rfl⟩
    · exfalso
      apply hnd.1
      rw [← show g = gr.1 from congrArg Prod.fst h₂]
      exact List.mem_map.mpr ⟨(g, m), h₁, rfl⟩
    · exact ih hnd.2 h₁ h₂

/-- With distinct group names, membership of the resolved group is the
same as the `category_group in user_groups` test of the code. -/
theorem mem_userGroups_findGroup {uid : UserId} {groups : Groups}
    {key : Name} {gr : Name × List UserId}
    (hnd : (groups.map Prod.fst).Nodup)
    (h : findGroup groups key = some gr) :
    gr.1 ∈ userGroups uid groups ↔ uid ∈ gr.2 := by
  rw [mem_userGroups_iff]
  constructor
  · rintro ⟨m, hm, hu⟩
    have := nodup_keys_unique hnd hm (by simpa using findGroup_mem h)
    exact this ▸ hu
  · intro hu
    exact ⟨gr.2, by simpa using findGroup_mem h, hu⟩

/-! ## Claim theorems -/

/-- C1: Two-level product visibility. For every viewer `uid` and
category `category` of the catalog: if the category is group-scoped
(its key matches a configured group's `f"{group}_"` convention) and the
viewer passed the category-level membership check, the `view_` listing
shows every product of the category without re-filtering; if the
category is public, a product is shown iff its name matches no
configured group's convention or the viewer is a member of the group
whose convention it matches. -/
theorem view_two_level_product_visibility (catalog : Catalog)
    (groups : Groups) (uid : UserId) (category : Name)
    (ps : List Product) (hc : catLookup catalog category = some ps) :
    (∀ gr, findGroup groups category = some gr → uid ∈ gr.2 →
      view_branch catalog groups uid category = some ps) ∧
    (findGroup groups category = none →
      ∃ shown, view_branch catalog groups uid category = some shown ∧
        ∀ p ∈ ps, (p ∈ shown ↔
          (findGroup groups p.name = none ∨
            ∃ gr, findGroup groups p.name = some gr ∧ uid ∈ gr.2))) := by
  constructor
  · intro gr hgr hm
    simp [view_branch, hc, hgr, List.elem_eq_mem, hm]
  · intro hn
    refine ⟨ps.filter (fun p => viewShowProduct groups uid p.name),
      by simp [view_branch, hc, hn], ?_⟩
    intro p hp
    rw [List.mem_filter]
    cases hfg : findGroup groups p.name with
    | none => simp [viewShowProduct, hfg, hp]
    | some gr =>
      simp only [viewShowProduct, hfg, hp, true_and]
      constructor
      · intro hct
        exact Or.inr ⟨gr, rfl, by simpa using hct⟩
      · rintro (h | ⟨gr', hgr', hct⟩)
        · simp [hfg] at h
        · cases hgr'
          simpa using hct

/-- C1 witness: a concrete group category shown whole to a member, and
a concrete public category filtering a non-member's group product. -/
theorem view_two_level_product_visibility_witness :
    view_branch [("VIP_Deals".toList,
        [⟨"Apple".toList, "2".toList, "fresh".toList, none⟩,
         ⟨"VIP_Gold".toList, "9".toList, "rare".toList, none⟩])]
      [("VIP".toList, [7])] 7 "VIP_Deals".toList =
      some [⟨"Apple".toList, "2".toList, "fresh".toList, none⟩,
        ⟨"VIP_Gold".toList, "9".toList, "rare".toList, none⟩] :=
  (view_two_level_product_visibility _ _ _ _ _ (by decide)).1
    ("VIP".toList, [7]) (by decide) (by decide)

/-- C10: `load_catalog` is total over the three read outcomes; a
missing file yields a catalog whose only entry is a zero-initialised
`stats` block stamped with the current time and date, and any other
load failure yields the empty dict, signalling no error to the caller. -/
theorem load_catalog_total (nowTime nowDate : Name) :
    (∀ r : LoadOutcome, ∃ c, load_catalog nowTime nowDate r = c) ∧
    (load_catalog nowTime nowDate .fileNotFound).categories = [] ∧
    (load_catalog nowTime nowDate .fileNotFound).stats =
      some ⟨0, [], [], nowTime, nowDate⟩ ∧
    load_catalog nowTime nowDate .otherError = ⟨[], none⟩ ∧
    ∀ c, load_catalog nowTime nowDate (.parsed c) = c := by
  refine ⟨fun r => ⟨_, rfl⟩, rfl, rfl, rfl, fun c => rfl⟩

/-- C9 counterexample: an internal (non-network) handler error raised
while the conversation waits for a category name leaves the
conversation in that same waiting state; the error boundary renders
neither the admin nor the home menu. -/
theorem error_boundary_stuck_waiting_cex :
    (dispatch_on_error .waitingCategoryName .other false).1 =
      ConvState.waitingCategoryName ∧
    ConvState.isWaiting
      (dispatch_on_error .waitingCategoryName .other false).1 = true ∧
    BotAction.renderAdminMenu ∉
      (dispatch_on_error .waitingCategoryName .other false).2 ∧
    BotAction.renderHomeMenu ∉
      (dispatch_on_error .waitingCategoryName .other false).2 := by
  decide

/-- C9 (amended): after a handler exception the dispatch boundary
catches and logs the error (answering the callback with a retry toast
for network/timeout errors) but leaves the per-user conversation state
unchanged and renders no stable menu — a waiting state stays waiting. -/
theorem error_boundary_state_unchanged (s : ConvState) (e : ErrKind)
    (hasCb : Bool) :
    (dispatch_on_error s e hasCb).1 = s ∧
    BotAction.logError ∈ (dispatch_on_error s e hasCb).2 ∧
    BotAction.renderAdminMenu ∉ (dispatch_on_error s e hasCb).2 ∧
    BotAction.renderHomeMenu ∉ (dispatch_on_error s e hasCb).2 := by
  refine ⟨rfl, ?_, ?_, ?_⟩ <;> cases e <;> cases hasCb <;>
    simp [dispatch_on_error, error_handler_actions]

theorem mem_isEmpty_false {α : Type} {l : List α} {a : α} (h : a ∈ l) :
    l.isEmpty = false := by
  cases l with
  | nil => simp at h
  | cons x xs => rfl

/-- C2 counterexample: the display name of a group category is computed
by `str.replace(f"{group}_", "")`, which removes EVERY occurrence of
the prefix, not only the leading one: the `VIP` category with local
name `VIP_Deals` (key `VIP_VIP_Deals`) is displayed as `Deals`, not as
its prefix-stripped local name `VIP_Deals`. -/
theorem show_categories_display_cex :
    findGroup [("VIP".toList, [7])] "VIP_VIP_Deals".toList =
      some ("VIP".toList, [7]) ∧
    "VIP_VIP_Deals".toList = gpfx "VIP".toList ++ "VIP_Deals".toList ∧
    showCategoriesEntry [("VIP".toList, [7])] 7 "VIP_VIP_Deals".toList =
      some "Deals".toList ∧
    "Deals".toList ≠ "VIP_Deals".toList := by
  refine ⟨by decide, by decide, ?_, by decide⟩
  have hfg : findGroup [("VIP".toList, [7])] "VIP_VIP_Deals".toList =
      some ("VIP".toList, [7]) := by decide
  simp only [showCategoriesEntry, hfg]
  rw [if_pos (by decide : ¬ (userGroups 7 [("VIP".toList, [7])]).isEmpty = true ∧
    ("VIP".toList, [7]).1 ∈ userGroups 7 [("VIP".toList, [7])])]
  have hsplit : "VIP_VIP_Deals".toList =
      gpfx ("VIP".toList, [7]).1 ++ (gpfx ("VIP".toList, [7]).1 ++ "Deals".toList) := by
    decide
  rw [hsplit, removeOccs_pat_append _ _ (by decide),
    removeOccs_pat_append _ _ (by decide),
    removeOccs_of_not_occursIn _ _ (by decide)]

/-- C2 (amended): a category is listed iff it has no resolvable group
convention or the owning group's member set contains the viewer; the
display name removes every occurrence of the owning group's `{g}_`
convention from the key — which equals stripping the prefix whenever
the local name does not itself contain that convention — and a
group-scoped category rejects a non-member who opens it. -/
theorem show_categories_visibility (groups : Groups) (uid : UserId)
    (category : Name) (hnd : (groups.map Prod.fst).Nodup) :
    ((showCategoriesEntry groups uid category).isSome = true ↔
      (findGroup groups category = none ∨
        ∃ gr, findGroup groups category = some gr ∧ uid ∈ gr.2)) ∧
    (∀ gr local_, findGroup groups category = some gr → uid ∈ gr.2 →
      category = gpfx gr.1 ++ local_ →
      occursIn (gpfx gr.1) local_ = false →
      showCategoriesEntry groups uid category = some local_) ∧
    (∀ catalog ps gr, catLookup catalog category = some ps →
      findGroup groups category = some gr → uid ∉ gr.2 →
      view_branch catalog groups uid category = none) := by
  refine ⟨?_, ?_, ?_⟩
  · cases hfg : findGroup groups category with
    | none => simp [showCategoriesEntry, hfg]
    | some gr =>
      simp only [showCategoriesEntry, hfg]
      constructor
      · intro h
        by_cases hin : gr.1 ∈ userGroups uid groups
        · exact Or.inr ⟨gr, rfl, (mem_userGroups_findGroup hnd hfg).mp hin⟩
        · rw [if_neg (fun hc => hin hc.2)] at h
          simp at h
      · rintro (h | ⟨gr', hgr', hu⟩)
        · simp [hfg] at h
        · cases hgr'
          have hin : gr.1 ∈ userGroups uid groups :=
            (mem_userGroups_findGroup hnd hfg).mpr hu
          rw [if_pos ⟨by simp [mem_isEmpty_false hin], hin⟩]
          rfl
  · intro gr local_ hfg hu hcat hocc
    have hin : gr.1 ∈ userGroups uid groups :=
      (mem_userGroups_findGroup hnd hfg).mpr hu
    simp only [showCategoriesEntry, hfg]
    rw [if_pos ⟨by simp [mem_isEmpty_false hin], hin⟩, hcat,
      removeOccs_gpfx_append _ _ hocc]
  · intro catalog ps gr hcl hfg hu
    have hc : ¬ (gr.2.contains uid = true) := by simpa using hu
    simp only [view_branch, hcl, hfg]
    rw [if_neg hc]

/-- C2 witness: member 7 of `VIP` sees `VIP_Deals` displayed as
`Deals`; non-member 9 is rejected when opening it. -/
theorem show_categories_visibility_witness :
    (showCategoriesEntry [("VIP".toList, [7])] 7 "VIP_Deals".toList).isSome
      = true ∧
    showCategoriesEntry [("VIP".toList, [7])] 7 "VIP_Deals".toList =
      some "Deals".toList ∧
    view_branch [("VIP_Deals".toList, [])] [("VIP".toList, [7])] 9
      "VIP_Deals".toList = none :=
  ⟨(show_categories_visibility [("VIP".toList, [7])] 7 "VIP_Deals".toList
      (by decide)).1.mpr
      (Or.inr ⟨("VIP".toList, [7]), by decide, by decide⟩),
   (show_categories_visibility [("VIP".toList, [7])] 7 "VIP_Deals".toList
      (by decide)).2.1
      ("VIP".toList, [7]) "Deals".toList (by decide) (by decide)
      (by decide) (by decide),
   (show_categories_visibility [("VIP".toList, [7])] 9 "VIP_Deals".toList
      (by decide)).2.2
      [("VIP_Deals".toList, [])] [] ("VIP".toList, [7]) (by decide)
      (by decide) (by decide)⟩

theorem contains_addMember_entry {gr : Name × List UserId} {g : Name}
    {uid : UserId} (h : gr.2.contains uid = true) :
    (if gr.1 = g then (gr.1, uid :: gr.2) else gr).2.contains uid = true := by
  by_cases hg : gr.1 = g <;> simp_all [List.contains_cons]

/-- C3 counterexample: adding user 7 to group `VIP` HIDES entries that
were previously visible to 7 in the admin selection listings: the
public product `Apple` of the public category `Pub` disappears from the
edit flow's product selection, and the public category `Pub` itself
disappears from the delete flow's category selection. -/
theorem visibility_monotonic_cex :
    addMember [("VIP".toList, [])] "VIP".toList 7 =
      [("VIP".toList, [7])] ∧
    editcatShowProduct [("VIP".toList, [])] 7 "Pub".toList
      "Apple".toList = true ∧
    editcatShowProduct [("VIP".toList, [7])] 7 "Pub".toList
      "Apple".toList = false ∧
    deleteCategoryShow [("VIP".toList, [])] 7 "Pub".toList = true ∧
    deleteCategoryShow [("VIP".toList, [7])] 7 "Pub".toList = false := by
  decide

/-- C3 (amended): in the CUSTOMER-facing listings (`show_categories`
and the `view_` product listing) visibility is monotonic in group
membership: after adding `uid` to group `g`, every category previously
visible stays visible, every product previously shown stays shown,
every category hidden due to a `g` prefix becomes visible (as does the
whole product list of such a category), and every `g`-prefixed product
hidden inside a public category becomes visible. The admin
edit/delete selection listings are NOT monotonic (see the
counterexample). -/
theorem visibility_monotonic_customer_listings (catalog : Catalog)
    (groups : Groups) (g : Name) (uid : UserId) (category : Name) :
    ((showCategoriesEntry groups uid category).isSome = true →
      (showCategoriesEntry (addMember groups g uid) uid category).isSome
        = true) ∧
    (∀ gr, findGroup groups category = some gr → gr.1 = g → uid ∉ gr.2 →
      (showCategoriesEntry (addMember groups g uid) uid category).isSome
        = true) ∧
    (∀ ps p, view_branch catalog groups uid category = some ps → p ∈ ps →
      ∃ ps', view_branch catalog (addMember groups g uid) uid category
        = some ps' ∧ p ∈ ps') ∧
    (∀ ps p gr, findGroup groups category = none →
      catLookup catalog category = some ps → p ∈ ps →
      findGroup groups p.name = some gr → gr.1 = g →
      ∃ ps', view_branch catalog (addMember groups g uid) uid category
        = some ps' ∧ p ∈ ps') ∧
    (∀ ps gr, catLookup catalog category = some ps →
      findGroup groups category = some gr → gr.1 = g →
      view_branch catalog (addMember groups g uid) uid category
        = some ps) := by
  refine ⟨?_, ?_, ?_, ?_, ?_⟩
  · intro h
    cases hfg : findGroup groups category with
    | none =>
      have : findGroup (addMember groups g uid) category = none := by
        rw [findGroup_addMember, hfg]; rfl
      simp [showCategoriesEntry, this]
    | some gr =>
      simp only [showCategoriesEntry, hfg] at h
      by_cases hin : gr.1 ∈ userGroups uid groups
      · have hin' : gr.1 ∈ userGroups uid (addMember groups g uid) :=
          userGroups_addMember_mono groups g gr.1 uid hin
        have hfg' : findGroup (addMember groups g uid) category =
            some (if gr.1 = g then (gr.1, uid :: gr.2) else gr) := by
          rw [findGroup_addMember, hfg]; rfl
        have hfst : (if gr.1 = g then (gr.1, uid :: gr.2) else gr).1 = gr.1 := by
          by_cases hg : gr.1 = g <;> simp [hg]
        simp only [showCategoriesEntry, hfg', hfst]
        rw [if_pos ⟨by simp [mem_isEmpty_false hin'], hin'⟩]
        rfl
      · rw [if_neg (fun hc => hin hc.2)] at h
        simp at h
  · intro gr hfg hg hu
    have hmem : (gr.1, gr.2) ∈ groups := by simpa using findGroup_mem hfg
    have hin' : gr.1 ∈ userGroups uid (addMember groups g uid) := by
      rw [hg] at hmem ⊢
      exact mem_userGroups_addMember_self groups g uid ⟨gr.2, hmem⟩
    have hfg' : findGroup (addMember groups g uid) category =
        some (if gr.1 = g then (gr.1, uid :: gr.2) else gr) := by
      rw [findGroup_addMember, hfg]; rfl
    have hfst : (if gr.1 = g then (gr.1, uid :: gr.2) else gr).1 = gr.1 := by
      by_cases hg' : gr.1 = g <;> simp [hg']
    simp only [showCategoriesEntry, hfg', hfst]
    rw [if_pos ⟨by simp [mem_isEmpty_false hin'], hin'⟩]
    rfl
  · intro ps p hv hp
    cases hcl : catLookup catalog category with
    | none => simp [view_branch, hcl] at hv
    | some qs =>
      cases hfg : findGroup groups category with
      | some gr =>
        simp only [view_branch, hcl, hfg] at hv
        by_cases hct : gr.2.contains uid = true
        · rw [if_pos hct] at hv
          have hfg' : findGroup (addMember groups g uid) category =
              some (if gr.1 = g then (gr.1, uid :: gr.2) else gr) := by
            rw [findGroup_addMember, hfg]; rfl
          refine ⟨ps, ?_, hp⟩
          simp only [view_branch, hcl, hfg']
          rw [if_pos (contains_addMember_entry hct)]
          exact hv
        · rw [if_neg hct] at hv
          exact absurd hv (by simp)
      | none =>
        simp only [view_branch, hcl, hfg] at hv
        have hfg' : findGroup (addMember groups g uid) category = none := by
          rw [findGroup_addMember, hfg]; rfl
        have hv' : ps = qs.filter (fun q => viewShowProduct groups uid q.name) := by
          cases hv; rfl
        subst hv'
        rw [List.mem_filter] at hp
        refine ⟨qs.filter
          (fun q => viewShowProduct (addMember groups g uid) uid q.name),
          by simp [view_branch, hcl, hfg'], ?_⟩
        rw [List.mem_filter]
        refine ⟨hp.1, ?_⟩
        have hshow := hp.2
        cases hfp : findGroup groups p.name with
        | none =>
          have : findGroup (addMember groups g uid) p.name = none := by
            rw [findGroup_addMember, hfp]; rfl
          simp [viewShowProduct, this]
        | some grp =>
          simp only [viewShowProduct, hfp] at hshow
          have hfp' : findGroup (addMember groups g uid) p.name =
              some (if grp.1 = g then (grp.1, uid :: grp.2) else grp) := by
            rw [findGroup_addMember, hfp]; rfl
          simp only [viewShowProduct, hfp']
          exact contains_addMember_entry hshow
  · intro ps p gr hfg hcl hp hfp hg
    have hfg' : findGroup (addMember groups g uid) category = none := by
      rw [findGroup_addMember, hfg]; rfl
    have hfp' : findGroup (addMember groups g uid) p.name =
        some (if gr.1 = g then (gr.1, uid :: gr.2) else gr) := by
      rw [findGroup_addMember, hfp]; rfl
    refine ⟨ps.filter
      (fun q => viewShowProduct (addMember groups g uid) uid q.name),
      by simp [view_branch, hcl, hfg'], ?_⟩
    rw [List.mem_filter]
    refine ⟨hp, ?_⟩
    simp only [viewShowProduct, hfp']
    rw [if_pos hg]
    simp [List.contains_cons]
  · intro ps gr hcl hfg hg
    have hfg' : findGroup (addMember groups g uid) category =
        some (if gr.1 = g then (gr.1, uid :: gr.2) else gr) := by
      rw [findGroup_addMember, hfg]; rfl
    simp only [view_branch, hcl, hfg']
    rw [if_pos (by rw [if_pos hg]; simp [List.contains_cons])]

/-- C3 witness: concrete monotonicity — after adding user 7 to `VIP`,
the previously hidden category `VIP_Deals` and the previously hidden
product `VIP_Gold` of the public category `Pub` become visible, and the
previously visible public category and product stay visible. -/
theorem visibility_monotonic_customer_listings_witness :
    (showCategoriesEntry
      (addMember [("VIP".toList, [])] "VIP".toList 7) 7
      "VIP_Deals".toList).isSome = true ∧
    (∃ ps', view_branch [("Pub".toList,
        [⟨"Apple".toList, "2".toList, "a".toList, none⟩])]
      (addMember [("VIP".toList, [])] "VIP".toList 7) 7 "Pub".toList
        = some ps' ∧
      ⟨"Apple".toList, "2".toList, "a".toList, none⟩ ∈ ps') ∧
    (∃ ps', view_branch [("Pub".toList,
        [⟨"VIP_Gold".toList, "9".toList, "g".toList, none⟩])]
      (addMember [("VIP".toList, [])] "VIP".toList 7) 7 "Pub".toList
        = some ps' ∧
      ⟨"VIP_Gold".toList, "9".toList, "g".toList, none⟩ ∈ ps') :=
  ⟨(visibility_monotonic_customer_listings [] [("VIP".toList, [])]
      "VIP".toList 7 "VIP_Deals".toList).2.1
      ("VIP".toList, []) (by decide) (by decide) (by decide),
   (visibility_monotonic_customer_listings
      [("Pub".toList, [⟨"Apple".toList, "2".toList, "a".toList, none⟩])]
      [("VIP".toList, [])] "VIP".toList 7 "Pub".toList).2.2.1
      [⟨"Apple".toList, "2".toList, "a".toList, none⟩]
      ⟨"Apple".toList, "2".toList, "a".toList, none⟩
      (by decide) (by decide),
   (visibility_monotonic_customer_listings
      [("Pub".toList, [⟨"VIP_Gold".toList, "9".toList, "g".toList, none⟩])]
      [("VIP".toList, [])] "VIP".toList 7 "Pub".toList).2.2.2.1
      [⟨"VIP_Gold".toList, "9".toList, "g".toList, none⟩]
      ⟨"VIP_Gold".toList, "9".toList, "g".toList, none⟩
      ("VIP".toList, []) (by decide) (by decide) (by decide)
      (by decide) (by decide)⟩

theorem sold_out_lookup {catalog : Catalog} {category : Name}
    (h : is_category_sold_out catalog category = true) :
    ∃ p, catLookup catalog category = some [p] ∧ p.name = SOLD_OUT := by
  unfold is_category_sold_out at h
  cases hcl : catLookup catalog category with
  | none => rw [hcl] at h; simp at h
  | some ps =>
    rw [hcl] at h
    cases ps with
    | nil => simp at h
    | cons p rest =>
      cases rest with
      | nil => exact ⟨p, rfl, by simpa using h⟩
      | cons q qs => simp at h

theorem clearSoldOutStep_of_sold_out {catalog : Catalog} {category : Name}
    (h : is_category_sold_out catalog category = true) :
    clearSoldOutStep catalog category = catSet catalog category [] := by
  obtain ⟨p, hcl, hname⟩ := sold_out_lookup h
  unfold clearSoldOutStep
  rw [hcl]
  simp [hname]

/-- C4: completing the add-product flow into a sold-out category yields
exactly the new product. The flow's name step (`handle_product_name`)
clears the sentinel and accepts the (possibly group-prefixed) name, and
then either completion path — `skip_media`, which stores no media key,
or `finish_product_media`, which stores the collected media — leaves
`products(category) == [p]`: the sentinel is never appended to. -/
theorem add_product_flow_clears_sold_out (catalog : Catalog)
    (groups : Groups) (uid : UserId) (category rawName pr ds : Name)
    (med : List Nat)
    (hso : is_category_sold_out catalog category = true) :
    (handle_product_name_step catalog groups uid category rawName).2.2 =
      some (prefixedProductName groups uid category rawName) ∧
    catLookup (skipMediaStep
        (handle_product_name_step catalog groups uid category rawName).1
        category
        ⟨prefixedProductName groups uid category rawName, pr, ds, none⟩)
      category =
      some [⟨prefixedProductName groups uid category rawName, pr, ds, none⟩] ∧
    catLookup (finishProductMediaStep
        (handle_product_name_step catalog groups uid category rawName).1
        category
        ⟨prefixedProductName groups uid category rawName, pr, ds, some med⟩)
      category =
      some [⟨prefixedProductName groups uid category rawName, pr, ds,
        some med⟩] := by
  have hclear := clearSoldOutStep_of_sold_out hso
  have hlk : catLookup (clearSoldOutStep catalog category) category =
      some [] := by rw [hclear]; exact catLookup_catSet_self _ _ _
  have hany : (((catLookup (clearSoldOutStep catalog category) category).getD
      []).any (fun p =>
        p.name == prefixedProductName groups uid category rawName)) = false := by
    rw [hlk]; rfl
  have hstep1 : (handle_product_name_step catalog groups uid category
      rawName).1 = clearSoldOutStep catalog category := by
    simp only [handle_product_name_step, hany, Bool.false_eq_true, if_false]
  have hstep2 : (handle_product_name_step catalog groups uid category
      rawName).2.2 =
      some (prefixedProductName groups uid category rawName) := by
    simp only [handle_product_name_step, hany, Bool.false_eq_true, if_false]
  have hmem : catMem (clearSoldOutStep catalog category) category = true := by
    unfold catMem
    rw [hlk]
    rfl
  have hidem : clearSoldOutStep (clearSoldOutStep catalog category)
      category = clearSoldOutStep catalog category := by
    conv_lhs => rw [clearSoldOutStep, hlk]
  refine ⟨hstep2, ?_, ?_⟩
  · rw [hstep1]
    simp only [skipMediaStep, hmem, if_true, hlk, Option.getD_some,
      List.nil_append]
    rw [catLookup_catSet_self]
  · rw [hstep1]
    simp only [finishProductMediaStep, hidem, hmem, if_true, hlk,
      Option.getD_some, List.nil_append]
    rw [catLookup_catSet_self]

/-- C4 witness: Scenario C — `Fruits` is sold out; adding `Banana`
through either completion path leaves exactly `[Banana]`. -/
theorem add_product_flow_clears_sold_out_witness :
    (handle_product_name_step [("Fruits".toList, [soldOutSentinel])] [] 7
      "Fruits".toList "Banana".toList).2.2 = some "Banana".toList ∧
    catLookup (skipMediaStep
        (handle_product_name_step [("Fruits".toList, [soldOutSentinel])]
          [] 7 "Fruits".toList "Banana".toList).1
        "Fruits".toList
        ⟨"Banana".toList, "3".toList, "ripe".toList, none⟩)
      "Fruits".toList =
      some [⟨"Banana".toList, "3".toList, "ripe".toList, none⟩] := by
  have h := add_product_flow_clears_sold_out
    [("Fruits".toList, [soldOutSentinel])] [] 7 "Fruits".toList
    "Banana".toList "3".toList "ripe".toList [] (by decide)
  have hpn : prefixedProductName [] 7 "Fruits".toList "Banana".toList =
      "Banana".toList := by decide
  exact ⟨by rw [h.1, hpn], by rw [← hpn]; exact h.2.1⟩

theorem gpfx_isEmpty (g : Name) : (gpfx g).isEmpty = false := by
  cases g <;> rfl

/-- C6: renaming a group-scoped category. When the rename handler
resolves an owning group `g` for the requester (the requester is a
member of `g` and `g`'s convention prefixes the old key), the new key
re-applies `g`'s prefix; an existing target key is rejected as a
duplicate with the catalog untouched and the handler staying in
`WAITING_NEW_CATEGORY_NAME`; otherwise the new key holds exactly the
old key's product list. -/
theorem rename_preserves_products_and_ownership (catalog : Catalog)
    (groups : Groups) (uid : UserId) (oldCat newNameRaw g : Name)
    (hg : renameUserGroup uid oldCat groups = some g) :
    (catMem catalog (gpfx g ++ newNameRaw) = true →
      handle_new_category_name_step catalog groups uid oldCat newNameRaw =
        some (catalog, .waitingNewCategoryName)) ∧
    (∀ ps, catMem catalog (gpfx g ++ newNameRaw) = false →
      catLookup catalog oldCat = some ps →
      handle_new_category_name_step catalog groups uid oldCat newNameRaw =
        some (catSet (catRemove catalog oldCat) (gpfx g ++ newNameRaw) ps,
          .choosing) ∧
      catLookup (catSet (catRemove catalog oldCat)
        (gpfx g ++ newNameRaw) ps) (gpfx g ++ newNameRaw) = some ps) := by
  constructor
  · intro hdup
    simp only [handle_new_category_name_step, hg, hdup, if_true]
  · intro ps hdup hcl
    refine ⟨?_, catLookup_catSet_self _ _ _⟩
    simp only [handle_new_category_name_step, hg, hdup, Bool.false_eq_true,
      if_false, hcl]

/-- C6 witness: member 7 of `VIP` renames `VIP_Old` to local name
`New`, yielding key `VIP_New` with the same single product; renaming
to the local name of the existing `VIP_Taken` is rejected in place. -/
theorem rename_preserves_products_and_ownership_witness :
    (handle_new_category_name_step
      [("VIP_Old".toList, [⟨"W".toList, "1".toList, "d".toList, none⟩])]
      [("VIP".toList, [7])] 7 "VIP_Old".toList "New".toList =
      some (catSet (catRemove
          [("VIP_Old".toList, [⟨"W".toList, "1".toList, "d".toList, none⟩])]
          "VIP_Old".toList)
        (gpfx "VIP".toList ++ "New".toList)
        [⟨"W".toList, "1".toList, "d".toList, none⟩], .choosing) ∧
     catLookup (catSet (catRemove
          [("VIP_Old".toList, [⟨"W".toList, "1".toList, "d".toList, none⟩])]
          "VIP_Old".toList)
        (gpfx "VIP".toList ++ "New".toList)
        [⟨"W".toList, "1".toList, "d".toList, none⟩])
        (gpfx "VIP".toList ++ "New".toList) =
        some [⟨"W".toList, "1".toList, "d".toList, none⟩]) ∧
    handle_new_category_name_step
      [("VIP_Old".toList, []), ("VIP_Taken".toList, [])]
      [("VIP".toList, [7])] 7 "VIP_Old".toList "Taken".toList =
      some ([("VIP_Old".toList, []), ("VIP_Taken".toList, [])],
        .waitingNewCategoryName) :=
  ⟨(rename_preserves_products_and_ownership
      [("VIP_Old".toList, [⟨"W".toList, "1".toList, "d".toList, none⟩])]
      [("VIP".toList, [7])] 7 "VIP_Old".toList "New".toList "VIP".toList
      (by decide)).2
      [⟨"W".toList, "1".toList, "d".toList, none⟩] (by decide) (by decide),
   (rename_preserves_products_and_ownership
      [("VIP_Old".toList, []), ("VIP_Taken".toList, [])]
      [("VIP".toList, [7])] 7 "VIP_Old".toList "Taken".toList "VIP".toList
      (by decide)).1 (by decide)⟩

/-- C7 counterexample: product `Widget` of a public category has no
group prefix; its editor, user 7, belongs to group `VIP`; the live
name-edit handler (`handle_new_value`) stores the entered `Gadget`
unchanged, NOT the claimed `VIP_Gadget`. (The never-registered
`edit_product_name` would have applied the editor's prefix, as the
claim describes.) -/
theorem edit_name_editor_prefix_cex :
    findGroup [("VIP".toList, [7])] "Widget".toList = none ∧
    userGroups 7 [("VIP".toList, [7])] = ["VIP".toList] ∧
    handle_new_value_name [("VIP".toList, [7])] "Widget".toList
      "Gadget".toList = "Gadget".toList ∧
    "Gadget".toList ≠ gpfx "VIP".toList ++ "Gadget".toList ∧
    edit_product_name_rule [("VIP".toList, [7])] 7 "Widget".toList
      "Gadget".toList = gpfx "VIP".toList ++ "Gadget".toList := by
  decide

/-- C7 (amended): the live name-edit handler re-applies the group
prefix the product's old name carried (resolved first-match), so an
existing prefix is never dropped; but when the product had no prefix
the entered name is stored unchanged, even if the editor belongs to a
group — the editor's-own-prefix fallback exists only in the dead,
never-registered `edit_product_name`. -/
theorem edit_name_prefix_rule (groups : Groups) (oldName newValue : Name) :
    (∀ gr, findGroup groups oldName = some gr →
      handle_new_value_name groups oldName newValue = gpfx gr.1 ++ newValue) ∧
    (findGroup groups oldName = none →
      handle_new_value_name groups oldName newValue = newValue) := by
  constructor
  · intro gr hfg
    simp only [handle_new_value_name, hfg]
    rw [if_pos (by simp [gpfx_isEmpty])]
  · intro hfg
    simp only [handle_new_value_name, hfg]
    rw [if_neg (by simp [List.isEmpty])]

/-- C7 witness: editing `VIP_Widget` to `Gadget` stores `VIP_Gadget`;
editing the prefix-less `Widget` stores `Gadget`. -/
theorem edit_name_prefix_rule_witness :
    handle_new_value_name [("VIP".toList, [7])] "VIP_Widget".toList
      "Gadget".toList = gpfx "VIP".toList ++ "Gadget".toList ∧
    handle_new_value_name [("VIP".toList, [7])] "Widget".toList
      "Gadget".toList = "Gadget".toList :=
  ⟨(edit_name_prefix_rule [("VIP".toList, [7])] "VIP_Widget".toList
      "Gadget".toList).1 ("VIP".toList, [7]) (by decide),
   (edit_name_prefix_rule [("VIP".toList, [7])] "Widget".toList
      "Gadget".toList).2 (by decide)⟩

/-- C8: every duplicate-name conflict leaves the catalog unchanged and
stays in the waiting state it was in. Creating a category whose
(possibly group-prefixed) key exists, naming a new product after an
existing product of the target category, and renaming a category onto
an existing key all return the same waiting state with the catalog
untouched, so the user can retry. -/
theorem duplicate_name_conflicts_keep_state (catalog : Catalog)
    (groups : Groups) (uid : UserId)
    (rawName category oldCat newRaw : Name) :
    (userGroups uid groups = [] → catMem catalog rawName = true →
      handle_category_name_step catalog groups uid rawName =
        (catalog, .waitingCategoryName)) ∧
    (∀ g, userGroups uid groups = [g] →
      catMem catalog (gpfx g ++ rawName) = true →
      handle_category_name_step catalog groups uid rawName =
        (catalog, .waitingCategoryName)) ∧
    ((handle_product_name_step catalog groups uid category rawName).2.2 =
        none →
      (handle_product_name_step catalog groups uid category rawName).1 =
        catalog ∧
      (handle_product_name_step catalog groups uid category rawName).2.1 =
        ConvState.waitingProductName) ∧
    (∀ g, renameUserGroup uid oldCat groups = some g →
      catMem catalog (gpfx g ++ newRaw) = true →
      handle_new_category_name_step catalog groups uid oldCat newRaw =
        some (catalog, .waitingNewCategoryName)) ∧
    (renameUserGroup uid oldCat groups = none →
      catMem catalog newRaw = true →
      handle_new_category_name_step catalog groups uid oldCat newRaw =
        some (catalog, .waitingNewCategoryName)) := by
  refine ⟨?_, ?_, ?_, ?_, ?_⟩
  · intro hug hdup
    simp [handle_category_name_step, hug, hdup]
  · intro g hug hdup
    simp [handle_category_name_step, hug, hdup]
  · intro hnone
    by_cases hex : ∃ p, catLookup catalog category = some [p] ∧
        p.name = SOLD_OUT
    · exfalso
      obtain ⟨p, hp, hn⟩ := hex
      have hclear : clearSoldOutStep catalog category =
          catSet catalog category [] := by
        unfold clearSoldOutStep
        rw [hp]
        simp [hn]
      have hlk : catLookup (clearSoldOutStep catalog category) category =
          some [] := by rw [hclear]; exact catLookup_catSet_self _ _ _
      have hanyf : (((catLookup (clearSoldOutStep catalog category)
          category).getD []).any (fun q =>
            q.name == prefixedProductName groups uid category rawName))
          = false := by rw [hlk]; rfl
      rw [show (handle_product_name_step catalog groups uid category
          rawName).2.2 =
          some (prefixedProductName groups uid category rawName) by
        simp only [handle_product_name_step, hanyf, Bool.false_eq_true,
          if_false]] at hnone
      simp at hnone
    · have hclear : clearSoldOutStep catalog category = catalog := by
        unfold clearSoldOutStep
        cases hc : catLookup catalog category with
        | none => rfl
        | some ps =>
          cases ps with
          | nil => rfl
          | cons p rest =>
            cases rest with
            | nil =>
              show (if (p.name == SOLD_OUT) = true then
                catSet catalog category [] else catalog) = catalog
              rw [if_neg (fun hn => hex ⟨p, hc, by simpa using hn⟩)]
            | cons q qs => rfl
      by_cases hany : (((catLookup (clearSoldOutStep catalog category)
          category).getD []).any (fun q =>
            q.name == prefixedProductName groups uid category rawName))
          = true
      · constructor
        · rw [show (handle_product_name_step catalog groups uid category
              rawName).1 = clearSoldOutStep catalog category by
            simp only [handle_product_name_step, hany, if_true]]
          exact hclear
        · simp only [handle_product_name_step, hany, if_true]
      · exfalso
        rw [show (handle_product_name_step catalog groups uid category
            rawName).2.2 =
            some (prefixedProductName groups uid category rawName) by
          simp only [handle_product_name_step]
          rw [if_neg hany]] at hnone
        simp at hnone
  · intro g hg hdup
    simp only [handle_new_category_name_step, hg, hdup, if_true]
  · intro hg hdup
    simp only [handle_new_category_name_step, hg, hdup, if_true]

/-- C8 witness: concrete duplicate category creation, duplicate product
name, and duplicate rename target, each leaving state and catalog in
place. -/
theorem duplicate_name_conflicts_keep_state_witness :
    handle_category_name_step [("Fruits".toList, [])] [] 7
      "Fruits".toList = ([("Fruits".toList, [])], .waitingCategoryName) ∧
    ((handle_product_name_step
        [("Fruits".toList,
          [⟨"Apple".toList, "2".toList, "a".toList, none⟩])] [] 7
        "Fruits".toList "Apple".toList).1 =
      [("Fruits".toList, [⟨"Apple".toList, "2".toList, "a".toList, none⟩])] ∧
     (handle_product_name_step
        [("Fruits".toList,
          [⟨"Apple".toList, "2".toList, "a".toList, none⟩])] [] 7
        "Fruits".toList "Apple".toList).2.1 =
      ConvState.waitingProductName) ∧
    handle_new_category_name_step
      [("VIP_Old".toList, []), ("VIP_Taken".toList, [])]
      [("VIP".toList, [7])] 7 "VIP_Old".toList "Taken".toList =
      some ([("VIP_Old".toList, []), ("VIP_Taken".toList, [])],
        .waitingNewCategoryName) :=
  ⟨(duplicate_name_conflicts_keep_state [("Fruits".toList, [])] [] 7
      "Fruits".toList "Fruits".toList "X".toList "X".toList).1
      (by decide) (by decide),
   (duplicate_name_conflicts_keep_state
      [("Fruits".toList, [⟨"Apple".toList, "2".toList, "a".toList, none⟩])]
      [] 7 "Apple".toList "Fruits".toList "X".toList "X".toList).2.2.1
      (by decide),
   (duplicate_name_conflicts_keep_state
      [("VIP_Old".toList, []), ("VIP_Taken".toList, [])]
      [("VIP".toList, [7])] 7 "Taken".toList "C".toList "VIP_Old".toList
      "Taken".toList).2.2.2.1 "VIP".toList (by decide) (by decide)⟩

theorem catOkB_iff (ps : List Product) :
    catOkB ps = true ↔
      (∀ p ∈ ps, p.name ≠ SOLD_OUT) ∨
        (∃ p, ps = [p] ∧ p.name = SOLD_OUT) := by
  cases ps with
  | nil => simp [catOkB]
  | cons p rest =>
    cases rest with
    | nil =>
      by_cases hn : p.name = SOLD_OUT
      · constructor
        · intro _
          exact Or.inr ⟨p, rfl, hn⟩
        · intro _
          simp [catOkB, hn]
      · constructor
        · intro _
          refine Or.inl ?_
          intro q hq
          rcases List.mem_singleton.mp hq with rfl
          exact hn
        · intro _
          simp [catOkB, hn]
    | cons q qs => simp [catOkB]

theorem CatalogInv_catSet {catalog : Catalog} {k : Name}
    {v : List Product} (hinv : CatalogInv catalog)
    (hv : catOkB v = true) : CatalogInv (catSet catalog k v) := by
  induction catalog with
  | nil =>
    intro e he
    simp only [catSet, List.mem_singleton] at he
    rw [he]
    exact hv
  | cons entry rest ih =>
    intro e he
    obtain ⟨k', v'⟩ := entry
    have hinv' : CatalogInv rest :=
      fun e' he' => hinv e' (List.mem_cons_of_mem _ he')
    by_cases hk : k' = k
    · simp only [catSet, if_pos hk] at he
      rcases List.mem_cons.mp he with h | h
      · rw [h]
        exact hv
      · exact hinv' e h
    · simp only [catSet, if_neg hk] at he
      rcases List.mem_cons.mp he with h | h
      · exact hinv e (h ▸ List.mem_cons_self _ _)
      · exact ih hinv' e h

theorem CatalogInv_catRemove {catalog : Catalog} {k : Name}
    (hinv : CatalogInv catalog) : CatalogInv (catRemove catalog k) := by
  induction catalog with
  | nil => intro e he; simp [catRemove] at he
  | cons entry rest ih =>
    intro e he
    obtain ⟨k', v'⟩ := entry
    have hinv' : CatalogInv rest :=
      fun e' he' => hinv e' (List.mem_cons_of_mem _ he')
    by_cases hk : k' = k
    · simp only [catRemove, if_pos hk] at he
      exact hinv' e he
    · simp only [catRemove, if_neg hk] at he
      rcases List.mem_cons.mp he with h | h
      · exact hinv e (h ▸ List.mem_cons_self _ _)
      · exact ih hinv' e h

theorem CatalogInv_lookup {catalog : Catalog} {k : Name}
    {ps : List Product} (hinv : CatalogInv catalog)
    (h : catLookup catalog k = some ps) : catOkB ps = true := by
  induction catalog with
  | nil => simp [catLookup] at h
  | cons entry rest ih =>
    obtain ⟨k', v'⟩ := entry
    have hinv' : CatalogInv rest :=
      fun e' he' => hinv e' (List.mem_cons_of_mem _ he')
    by_cases hk : k' = k
    · simp only [catLookup, if_pos hk, Option.some.injEq] at h
      rw [← h]
      exact hinv (k', v') (List.mem_cons_self _ _)
    · simp only [catLookup, if_neg hk] at h
      exact ih hinv' h

/-- The clearing guard either fires (sentinel singleton) or leaves the
catalog unchanged. -/
theorem clearSoldOutStep_split (catalog : Catalog) (category : Name) :
    ((∃ p, catLookup catalog category = some [p] ∧ p.name = SOLD_OUT) ∧
      clearSoldOutStep catalog category = catSet catalog category []) ∨
    ((¬ ∃ p, catLookup catalog category = some [p] ∧ p.name = SOLD_OUT) ∧
      clearSoldOutStep catalog category = catalog) := by
  by_cases hex : ∃ p, catLookup catalog category = some [p] ∧
      p.name = SOLD_OUT
  · left
    obtain ⟨p, hp, hn⟩ := hex
    refine ⟨⟨p, hp, hn⟩, ?_⟩
    unfold clearSoldOutStep
    rw [hp]
    show (if (p.name == SOLD_OUT) = true then catSet catalog category []
      else catalog) = _
    rw [if_pos (by simpa using hn)]
  · right
    refine ⟨hex, ?_⟩
    unfold clearSoldOutStep
    cases hc : catLookup catalog category with
    | none => rfl
    | some ps =>
      cases ps with
      | nil => rfl
      | cons p rest =>
        cases rest with
        | nil =>
          show (if (p.name == SOLD_OUT) = true then
            catSet catalog category [] else catalog) = _
          rw [if_neg (fun hn => hex ⟨p, hc, by simpa using hn⟩)]
        | cons q qs => rfl

theorem CatalogInv_clearSoldOutStep {catalog : Catalog} {category : Name}
    (hinv : CatalogInv catalog) :
    CatalogInv (clearSoldOutStep catalog category) := by
  rcases clearSoldOutStep_split catalog category with ⟨-, heq⟩ | ⟨-, heq⟩
  · rw [heq]
    exact CatalogInv_catSet hinv rfl
  · rw [heq]
    exact hinv

/-- After the clearing step, the category never holds a sentinel-named
product (given the invariant). -/
theorem clear_no_sentinel {catalog : Catalog} {category : Name}
    {prev : List Product} (hinv : CatalogInv catalog)
    (h : catLookup (clearSoldOutStep catalog category) category =
      some prev) : ∀ q ∈ prev, q.name ≠ SOLD_OUT := by
  rcases clearSoldOutStep_split catalog category with ⟨-, heq⟩ | ⟨hex, heq⟩
  · rw [heq, catLookup_catSet_self] at h
    cases h
    intro q hq
    simp at hq
  · rw [heq] at h
    have hok := CatalogInv_lookup hinv h
    rcases (catOkB_iff _).mp hok with hall | ⟨p, hp, hn⟩
    · exact hall
    · exact absurd ⟨p, hp ▸ h, hn⟩ hex

theorem not_sold_out_of_no_sentinel {catalog : Catalog} {c : Name}
    {ps : List Product} (h : catLookup catalog c = some ps)
    (hps : ∀ q ∈ ps, q.name ≠ SOLD_OUT) :
    is_category_sold_out catalog c = false := by
  unfold is_category_sold_out
  rw [h]
  cases ps with
  | nil => rfl
  | cons p rest =>
    cases rest with
    | nil => simpa using hps p (List.mem_singleton.mpr rfl)
    | cons q qs => rfl

theorem catOkB_filter (ps : List Product) (f : Product → Bool)
    (hok : catOkB ps = true) : catOkB (ps.filter f) = true := by
  rcases (catOkB_iff ps).mp hok with h | ⟨p, hp, hn⟩
  · exact (catOkB_iff _).mpr
      (Or.inl fun q hq => h q (List.mem_of_mem_filter hq))
  · subst hp
    by_cases hf : f p = true
    · exact (catOkB_iff _).mpr (Or.inr ⟨p, by simp [hf], hn⟩)
    · refine (catOkB_iff _).mpr (Or.inl ?_)
      intro q hq
      simp [List.filter, hf] at hq

theorem name_applyEdit (f : EditField) (v : Name) (p : Product) :
    (applyEdit f v p).name = if f = .fname then v else p.name := by
  cases f <;> simp [applyEdit]

theorem no_sentinel_updateFirstProduct {oldName : Name} {f : EditField}
    {v : Name} (hv : f = EditField.fname → v ≠ SOLD_OUT) :
    ∀ ps : List Product, (∀ p ∈ ps, p.name ≠ SOLD_OUT) →
      ∀ q ∈ updateFirstProduct oldName (applyEdit f v) ps,
        q.name ≠ SOLD_OUT := by
  intro ps
  induction ps with
  | nil =>
    intro _ q hq
    simp [updateFirstProduct] at hq
  | cons p rest ih =>
    intro h q hq
    unfold updateFirstProduct at hq
    by_cases hname : (p.name == oldName) = true
    · rw [if_pos hname] at hq
      rcases List.mem_cons.mp hq with h1 | h1
      · rw [h1, name_applyEdit]
        by_cases hf : f = .fname
        · rw [if_pos hf]
          exact hv hf
        · rw [if_neg hf]
          exact h p (List.mem_cons_self _ _)
      · exact h q (List.mem_cons_of_mem _ h1)
    · rw [if_neg hname] at hq
      rcases List.mem_cons.mp hq with h1 | h1
      · exact h q (h1 ▸ List.mem_cons_self _ _)
      · exact ih (fun r hr => h r (List.mem_cons_of_mem _ hr)) q h1

theorem catOkB_updateFirstProduct {ps : List Product} {oldName : Name}
    {f : EditField} {v : Name} (hok : catOkB ps = true)
    (hv : f = EditField.fname → v ≠ SOLD_OUT) :
    catOkB (updateFirstProduct oldName (applyEdit f v) ps) = true := by
  rcases (catOkB_iff ps).mp hok with h | ⟨p, hp, hn⟩
  · exact (catOkB_iff _).mpr
      (Or.inl (no_sentinel_updateFirstProduct hv ps h))
  · subst hp
    unfold updateFirstProduct
    by_cases hname : (p.name == oldName) = true
    · rw [if_pos hname]
      by_cases hf : f = .fname
      · refine (catOkB_iff _).mpr (Or.inl ?_)
        intro q hq
        rcases List.mem_singleton.mp hq with rfl
        rw [name_applyEdit, if_pos hf]
        exact hv hf
      · refine (catOkB_iff _).mpr (Or.inr ⟨applyEdit f v p, rfl, ?_⟩)
        rw [name_applyEdit, if_neg hf]
        exact hn
    · rw [if_neg hname]
      exact hok

theorem append_step_inv {catalog : Catalog} {category : Name}
    {p : Product} (hinv : CatalogInv catalog)
    (hnosent : ∀ prev, catLookup catalog category = some prev →
      ∀ q ∈ prev, q.name ≠ SOLD_OUT)
    (hp : p.name ≠ SOLD_OUT) :
    CatalogInv (skipMediaStep catalog category p) ∧
    is_category_sold_out (skipMediaStep catalog category p) category
      = false := by
  simp only [skipMediaStep]
  by_cases hmem : catMem catalog category = true
  · rw [if_pos hmem]
    obtain ⟨prev, hprev⟩ : ∃ prev, catLookup catalog category = some prev := by
      unfold catMem at hmem
      exact Option.isSome_iff_exists.mp hmem
    rw [hprev]
    have hall : ∀ q ∈ prev ++ [p], q.name ≠ SOLD_OUT := by
      intro q hq
      rcases List.mem_append.mp hq with h | h
      · exact hnosent prev hprev q h
      · rcases List.mem_singleton.mp h with rfl
        exact hp
    constructor
    · exact CatalogInv_catSet hinv ((catOkB_iff _).mpr (Or.inl hall))
    · exact not_sold_out_of_no_sentinel (catLookup_catSet_self _ _ _) hall
  · rw [if_neg hmem, catLookup_catSet_self]
    have hall : ∀ q ∈ ([] : List Product) ++ [p], q.name ≠ SOLD_OUT := by
      intro q hq
      rcases List.mem_singleton.mp (by simpa using hq) with rfl
      exact hp
    constructor
    · exact CatalogInv_catSet (CatalogInv_catSet hinv rfl)
        ((catOkB_iff _).mpr (Or.inl hall))
    · exact not_sold_out_of_no_sentinel (catLookup_catSet_self _ _ _) hall

theorem clearSoldOutStep_idem (catalog : Catalog) (category : Name) :
    clearSoldOutStep (clearSoldOutStep catalog category) category =
      clearSoldOutStep catalog category := by
  rcases clearSoldOutStep_split catalog category with ⟨-, heq⟩ | ⟨hex, heq⟩
  · rw [heq]
    rcases clearSoldOutStep_split (catSet catalog category []) category with
      ⟨⟨r, hr, -⟩, -⟩ | ⟨-, heq2⟩
    · rw [catLookup_catSet_self] at hr
      cases hr
    · exact heq2
  · rw [heq]
    rcases clearSoldOutStep_split catalog category with ⟨hex2, -⟩ | ⟨-, heq2⟩
    · exact absurd hex2 hex
    · exact heq2

theorem finish_eq_skip_of_cleared (catalog : Catalog) (category : Name)
    (p : Product) :
    finishProductMediaStep (clearSoldOutStep catalog category) category p =
      skipMediaStep (clearSoldOutStep catalog category) category p := by
  simp only [finishProductMediaStep, skipMediaStep,
    clearSoldOutStep_idem catalog category]

/-- C5 counterexample: nothing reserves the sentinel name, so the
add-product flow accepts an ordinary product literally named
`SOLD OUT ! ❌` into the public category `Cat` alongside `Apple` —
the sentinel then coexists with an ordinary product (the invariant
fails) — and subsequently deleting `Apple` by the ordinary deletion
handler leaves exactly the sentinel-named product, producing a
sold-out category without `setSoldOut` ever running. -/
theorem sold_out_invariant_cex :
    (handle_product_name_step
        [("Cat".toList, [⟨"Apple".toList, "2".toList, "a".toList, none⟩])]
        [] 7 "Cat".toList SOLD_OUT).2.2 = some SOLD_OUT ∧
    (handle_product_name_step
        [("Cat".toList, [⟨"Apple".toList, "2".toList, "a".toList, none⟩])]
        [] 7 "Cat".toList SOLD_OUT).1 =
      [("Cat".toList, [⟨"Apple".toList, "2".toList, "a".toList, none⟩])] ∧
    CatalogInv
      [("Cat".toList, [⟨"Apple".toList, "2".toList, "a".toList, none⟩])] ∧
    ¬ CatalogInv (skipMediaStep
        [("Cat".toList, [⟨"Apple".toList, "2".toList, "a".toList, none⟩])]
        "Cat".toList ⟨SOLD_OUT, "1".toList, "x".toList, none⟩) ∧
    is_category_sold_out (skipMediaStep
        [("Cat".toList, [⟨"Apple".toList, "2".toList, "a".toList, none⟩])]
        "Cat".toList ⟨SOLD_OUT, "1".toList, "x".toList, none⟩)
      "Cat".toList = false ∧
    is_category_sold_out (deleteProductStep (skipMediaStep
        [("Cat".toList, [⟨"Apple".toList, "2".toList, "a".toList, none⟩])]
        "Cat".toList ⟨SOLD_OUT, "1".toList, "x".toList, none⟩)
      "Cat".toList "Apple".toList) "Cat".toList = true := by
  decide

/-- C5 (amended): provided no ordinary product is stored under the
reserved sentinel name, every catalog mutation preserves the sold-out
invariant (each category either holds no sentinel-named product or is
exactly the sentinel singleton): category creation, the add-product
flow (either completion path — which also never yields a sold-out
category), ordinary product deletion (which never turns a
non-sold-out category sold-out), the sold-out operation itself,
category deletion, category rename, and product field edits. -/
theorem sold_out_invariant_preserved (catalog : Catalog)
    (groups : Groups) (uid : UserId)
    (category rawName delName pr ds oldCat newRaw oldName : Name)
    (med : List Nat) (f : EditField) (hinv : CatalogInv catalog) :
    CatalogInv (handle_category_name_step catalog groups uid rawName).1 ∧
    (prefixedProductName groups uid category rawName ≠ SOLD_OUT →
      (CatalogInv (skipMediaStep
          (handle_product_name_step catalog groups uid category rawName).1
          category
          ⟨prefixedProductName groups uid category rawName, pr, ds, none⟩) ∧
        is_category_sold_out (skipMediaStep
          (handle_product_name_step catalog groups uid category rawName).1
          category
          ⟨prefixedProductName groups uid category rawName, pr, ds, none⟩)
          category = false) ∧
      (CatalogInv (finishProductMediaStep
          (handle_product_name_step catalog groups uid category rawName).1
          category
          ⟨prefixedProductName groups uid category rawName, pr, ds,
            some med⟩) ∧
        is_category_sold_out (finishProductMediaStep
          (handle_product_name_step catalog groups uid category rawName).1
          category
          ⟨prefixedProductName groups uid category rawName, pr, ds,
            some med⟩) category = false)) ∧
    (CatalogInv (deleteProductStep catalog category delName) ∧
      (is_category_sold_out catalog category = false →
        is_category_sold_out (deleteProductStep catalog category delName)
          category = false)) ∧
    CatalogInv (confirm_soldout_step catalog category) ∧
    CatalogInv (deleteCategoryStep catalog groups uid category) ∧
    (∀ cat' s, handle_new_category_name_step catalog groups uid oldCat
        newRaw = some (cat', s) → CatalogInv cat') ∧
    (∀ cat', handle_new_value_step catalog groups f category oldName
        newRaw = some cat' →
      (f = EditField.fname →
        handle_new_value_name groups oldName newRaw ≠ SOLD_OUT) →
      CatalogInv cat') := by
  have hstep1 : (handle_product_name_step catalog groups uid category
      rawName).1 = clearSoldOutStep catalog category := by
    simp only [handle_product_name_step]
    split <;> rfl
  refine ⟨?_, ?_, ⟨?_, ?_⟩, ?_, ?_, ?_, ?_⟩
  · simp only [handle_category_name_step]
    split
    · exact hinv
    · split
      · exact hinv
      · exact CatalogInv_catSet hinv rfl
  · intro hp
    rw [hstep1, finish_eq_skip_of_cleared]
    exact ⟨append_step_inv (CatalogInv_clearSoldOutStep hinv)
        (fun prev hprev => clear_no_sentinel hinv hprev) hp,
      append_step_inv (CatalogInv_clearSoldOutStep hinv)
        (fun prev hprev => clear_no_sentinel hinv hprev) hp⟩
  · unfold deleteProductStep
    cases hc : catLookup catalog category with
    | none => exact hinv
    | some ps =>
      exact CatalogInv_catSet hinv
        (catOkB_filter ps _ (CatalogInv_lookup hinv hc))
  · intro hso
    unfold deleteProductStep
    cases hc : catLookup catalog category with
    | none => exact hso
    | some ps =>
      have hok := CatalogInv_lookup hinv hc
      have hns : ∀ q ∈ ps, q.name ≠ SOLD_OUT := by
        rcases (catOkB_iff ps).mp hok with h | ⟨p, hp, hn⟩
        · exact h
        · exfalso
          subst hp
          unfold is_category_sold_out at hso
          rw [hc] at hso
          simp [hn] at hso
      refine not_sold_out_of_no_sentinel (catLookup_catSet_self _ _ _) ?_
      intro q hq
      exact hns q (List.mem_of_mem_filter hq)
  · exact CatalogInv_catSet hinv rfl
  · simp only [deleteCategoryStep]
    split
    · split
      · exact CatalogInv_catRemove hinv
      · exact hinv
    · exact hinv
  · intro cat' s h
    simp only [handle_new_category_name_step] at h
    split at h
    · cases h
      exact hinv
    · split at h
      · cases h
      · rename_i ps hlk
        cases h
        exact CatalogInv_catSet (CatalogInv_catRemove hinv)
          (CatalogInv_lookup hinv hlk)
  · intro cat' h hname
    simp only [handle_new_value_step] at h
    split at h
    · cases h
    · rename_i ps hlk
      split at h
      · injection h with h
        rw [← h]
        refine CatalogInv_catSet hinv
          (catOkB_updateFirstProduct (CatalogInv_lookup hinv hlk) ?_)
        intro hf
        subst hf
        exact hname rfl
      · cases h

/-- C5 witness: on a concrete two-category catalog satisfying the
invariant, the mutations preserve it: adding `Banana`, deleting
`Apple` (leaving the category non-sold-out), and setting sold out. -/
theorem sold_out_invariant_preserved_witness :
    (CatalogInv (skipMediaStep
        (handle_product_name_step
          [("Cat".toList, [⟨"Apple".toList, "2".toList, "a".toList, none⟩])]
          [] 7 "Cat".toList "Banana".toList).1
        "Cat".toList
        ⟨prefixedProductName [] 7 "Cat".toList "Banana".toList,
          "3".toList, "b".toList, none⟩) ∧
      is_category_sold_out (skipMediaStep
        (handle_product_name_step
          [("Cat".toList, [⟨"Apple".toList, "2".toList, "a".toList, none⟩])]
          [] 7 "Cat".toList "Banana".toList).1
        "Cat".toList
        ⟨prefixedProductName [] 7 "Cat".toList "Banana".toList,
          "3".toList, "b".toList, none⟩) "Cat".toList = false) ∧
    (CatalogInv (deleteProductStep
        [("Cat".toList, [⟨"Apple".toList, "2".toList, "a".toList, none⟩])]
        "Cat".toList "Apple".toList) ∧
      is_category_sold_out (deleteProductStep
        [("Cat".toList, [⟨"Apple".toList, "2".toList, "a".toList, none⟩])]
        "Cat".toList "Apple".toList) "Cat".toList = false) ∧
    CatalogInv (confirm_soldout_step
      [("Cat".toList, [⟨"Apple".toList, "2".toList, "a".toList, none⟩])]
      "Cat".toList) :=
  have h := sold_out_invariant_preserved
    [("Cat".toList, [⟨"Apple".toList, "2".toList, "a".toList, none⟩])]
    [] 7 "Cat".toList "Banana".toList "Apple".toList "3".toList
    "b".toList "X".toList "Y".toList "Z".toList [] EditField.fprice
    (by decide)
  ⟨(h.2.1 (by decide)).1,
   ⟨h.2.2.1.1, h.2.2.1.2 (by decide)⟩,
   h.2.2.2.1⟩

end CatalogBot
